import Mathlib

/-!
Verification development for the Q2P (query-to-particles) model in
src/model/q2p.py.  Tensors are modelled as nested lists of elements of a
linear ordered field; a tensor of shape [batch, num_particles, dim] is a
list (over the batch) of particle sets, each particle set a list of rows,
each row a list of scalars.  All torch operations used by the source act
independently per batch element, so every module is embedded as a
per-batch-element function plus, where needed, a batched wrapper that maps
it over the batch.  The transcendental scalar functions (exp inside
softmax, sqrt, sigmoid, tanh, gelu) are abstracted as a record of scalar
functions; nothing proved here depends on their values.  Dropout layers
are the identity (inference mode), as in the specification.
-/

namespace SQE

variable {α : Type} [LinearOrderedField α]

/-- Dot product of two feature vectors (elementwise product, then sum). -/
def dot (v w : List α) : α := (List.zipWith (fun a b => a * b) v w).sum

/-- Elementwise sum of two vectors. -/
def addVec (v w : List α) : List α := List.zipWith (fun a b => a + b) v w

/-- Elementwise (Hadamard) product of two vectors. -/
def mulVec (v w : List α) : List α := List.zipWith (fun a b => a * b) v w

/-- The all-zero vector of length d. -/
def zeroVec (d : ℕ) : List α := List.replicate d 0

/-- Weighted sum of the rows of a matrix; this is one output row of
torch.matmul(P, V), where the weights are one row of P.  The parameter d
is the feature dimension used for the empty sum. -/
def weightedSum (d : ℕ) : List α → List (List α) → List α
  | _, [] => zeroVec d
  | [], _ :: _ => zeroVec d
  | w :: ws, r :: rs => addVec (r.map (fun t => w * t)) (weightedSum d ws rs)

/-- One batch element of torch.matmul(A, B.permute(0, 2, 1)): entry (i, j)
is the dot product of row i of A with row j of B. -/
def matmulT (A B : List (List α)) : List (List α) :=
  A.map (fun a => B.map (fun b => dot a b))

/-- One batch element of torch.matmul(A, B), computed row by row as
weighted sums of the rows of B. -/
def matmul (d : ℕ) (A B : List (List α)) : List (List α) :=
  A.map (fun p => weightedSum d p B)

/-- Softmax over one row (nn.Softmax(dim=-1)), with the exponential
abstracted as expf. -/
def softmaxRow (expf : α → α) (v : List α) : List α :=
  let es := v.map expf
  es.map (fun e => e / es.sum)

/-- The scalar nonlinearities of the model, kept abstract: exp (inside
softmax), sqrt, sigmoid, tanh and gelu. -/
structure ScalarFuns (α : Type) where
  expf : α → α
  sqrtf : α → α
  sigmoidf : α → α
  tanhf : α → α
  geluf : α → α

/-- An nn.Linear layer: a weight matrix (rows indexed by output features)
and a bias vector. -/
structure Linear (α : Type) where
  weight : List (List α)
  bias : List α

/-- Application of an nn.Linear layer to one feature vector. -/
def Linear.apply (L : Linear α) (v : List α) : List α :=
  List.zipWith (fun row b => dot row v + b) L.weight L.bias

/-- Application of an nn.Linear layer to every row of a matrix. -/
def Linear.applyMat (L : Linear α) (m : List (List α)) : List (List α) :=
  m.map L.apply

/-- The LayerNorm module of q2p.py: learned elementwise scale and shift
around a standardization of the last axis. -/
structure LayerNorm (α : Type) where
  weight : List α
  bias : List α
  variance_epsilon : α

/-- Mean of the entries of a vector. -/
def mean (v : List α) : α := v.sum / (v.length : α)

/-- LayerNorm.forward on one row (the source normalizes over the last
axis): subtract the mean, divide by sqrt(variance + eps), then apply the
learned elementwise scale and shift. -/
def LayerNorm.forwardRow (c : ScalarFuns α) (L : LayerNorm α) (x : List α) : List α :=
  let u := mean x
  let s := mean (x.map (fun t => (t - u) ^ 2))
  let xn := x.map (fun t => (t - u) / c.sqrtf (s + L.variance_epsilon))
  addVec (mulVec L.weight xn) L.bias

/-- LayerNorm.forward on a particle set (row by row). -/
def LayerNorm.forward (c : ScalarFuns α) (L : LayerNorm α) (m : List (List α)) : List (List α) :=
  m.map (L.forwardRow c)

/-- The SelfAttention module of q2p.py: three nn.Linear layers and the
hidden size. -/
structure SelfAttention (α : Type) where
  query : Linear α
  key : Linear α
  value : Linear α
  hidden_size : ℕ

/-- SelfAttention.forward on one batch element, exactly as in the source
(lines 40-58 of q2p.py): K, V and Q are all three computed with the query
linear layer, scores are Q Kᵗ scaled by 1/sqrt(hidden_size), softmax is
taken over the last axis, and the output is probs · V. -/
def SelfAttention.forward (c : ScalarFuns α) (A : SelfAttention α)
    (particles : List (List α)) : List (List α) :=
  let K := A.query.applyMat particles
  let V := A.query.applyMat particles
  let Q := A.query.applyMat particles
  let attention_scores := matmulT Q K
  let attention_scores2 :=
    attention_scores.map (fun row => row.map (fun t => t / c.sqrtf ((A.hidden_size : ℕ) : α)))
  let attention_probs := attention_scores2.map (softmaxRow c.expf)
  matmul A.hidden_size attention_probs V

/-- SelfAttention.forward on a whole batch. -/
def SelfAttention.forwardB (c : ScalarFuns α) (A : SelfAttention α)
    (batch : List (List (List α))) : List (List (List α)) :=
  batch.map (A.forward c)

/-- The FFN module of q2p.py: two nn.Linear layers with a GELU between. -/
structure FFN (α : Type) where
  linear1 : Linear α
  linear2 : Linear α

/-- FFN.forward on one particle; the dropout layers are the identity at
inference time. -/
def FFN.forwardRow (c : ScalarFuns α) (F : FFN α) (v : List α) : List α :=
  F.linear2.apply ((F.linear1.apply v).map c.geluf)

/-- FFN.forward on a particle set (position-wise). -/
def FFN.forward (c : ScalarFuns α) (F : FFN α) (m : List (List α)) : List (List α) :=
  m.map (F.forwardRow c)

/-- The ParticleCrusher module of q2p.py: learned per-slot offsets. -/
structure ParticleCrusher (α : Type) where
  num_particles : ℕ
  off_sets : List (List α)

/-- ParticleCrusher.forward on one batch element: broadcast the entity
embedding against the per-slot offsets and add. -/
def ParticleCrusher.forward (C : ParticleCrusher α) (e : List α) : List (List α) :=
  C.off_sets.map (fun off => addVec e off)

/-- A batched particle-set tensor [batch_size, num_particles, embedding_size]. -/
abbrev PBatch (α : Type) := List (List (List α))

/-- The Q2P model: embedding tables and the parameters of every operator,
as built in Q2P.__init__.  The score decoder is an nn.Linear without bias
whose weight is the very entity embedding table (tied weights, line 122 of
q2p.py), so it appears here only through entity_embedding. -/
structure Q2P (α : Type) where
  num_entities : ℕ
  num_relations : ℕ
  embedding_size : ℕ
  num_particles : ℕ
  entity_embedding : List (List α)
  relation_embedding : List (List α)
  to_particles : ParticleCrusher α
  projection_layer_norm_1 : LayerNorm α
  projection_layer_norm_2 : LayerNorm α
  projection_self_attn : SelfAttention α
  projection_Wz : Linear α
  projection_Uz : Linear α
  projection_Wr : Linear α
  projection_Ur : Linear α
  projection_Wh : Linear α
  projection_Uh : Linear α
  high_projection_attn : SelfAttention α
  high_projection_ffn : FFN α
  high_projection_layer_norm_1 : LayerNorm α
  high_projection_layer_norm_2 : LayerNorm α
  intersection_attn : SelfAttention α
  intersection_ffn : FFN α
  intersection_layer_norm_1 : LayerNorm α
  intersection_layer_norm_2 : LayerNorm α
  intersection_layer_norm_3 : LayerNorm α
  intersection_layer_norm_4 : LayerNorm α
  complement_attn : SelfAttention α
  complement_ffn : FFN α
  complement_layer_norm_1 : LayerNorm α
  complement_layer_norm_2 : LayerNorm α
  complement_layer_norm_3 : LayerNorm α
  complement_layer_norm_4 : LayerNorm α

/-- Maximum of the entries of a nonempty list (torch max reduction); 0 on
the empty list, which torch instead rejects. -/
def vecMax : List α → α
  | [] => 0
  | x :: xs => xs.foldl max x

/-- Q2P.scoring on one batch element: decode every particle against the
tied entity embedding table (the decoder is bias-free and its weight is
entity_embedding itself), then max over the particle axis (dim=1). -/
def Q2P.scoring1 (M : Q2P α) (query_encoding : List (List α)) : List α :=
  let query_scores :=
    query_encoding.map (fun p => M.entity_embedding.map (fun erow => dot erow p))
  (List.range M.num_entities).map (fun e => vecMax (query_scores.map (fun row => row.getD e 0)))

/-- Q2P.scoring on a whole batch. -/
def Q2P.scoring (M : Q2P α) (b : PBatch α) : List (List α) :=
  b.map M.scoring1

/-- Q2P.projection on one batch element (lines 199-242 of q2p.py): look up
the relation embedding and broadcast it over the particle slots, compute
the GRU-style gated update, then layer norm, self-attention, layer norm.
The dropout layers are the identity at inference time. -/
def Q2P.projection1 (c : ScalarFuns α) (M : Q2P α) (rel : ℕ)
    (sub_query_encoding : List (List α)) : List (List α) :=
  let relation_transition := M.relation_embedding.getD rel []
  let h :=
    sub_query_encoding.map (fun p =>
      let z := (addVec (M.projection_Wz.apply relation_transition)
        (M.projection_Uz.apply p)).map c.sigmoidf
      let r := (addVec (M.projection_Wr.apply relation_transition)
        (M.projection_Ur.apply p)).map c.sigmoidf
      let h_hat := (addVec (M.projection_Wh.apply relation_transition)
        (M.projection_Uh.apply (mulVec p r))).map c.tanhf
      addVec (mulVec (z.map (fun t => 1 - t)) p) (mulVec z h_hat))
  M.projection_layer_norm_2.forward c
    (M.projection_self_attn.forward c (M.projection_layer_norm_1.forward c h))

/-- Elementwise sum of two particle sets (the residual additions of the
source). -/
def addMat (a b : List (List α)) : List (List α) :=
  List.zipWith addVec a b

/-- Q2P.higher_projection on one batch element (lines 244-251): one
attention/norm/FFN-residual/norm pre-pass, then delegate to projection. -/
def Q2P.higher_projection1 (c : ScalarFuns α) (M : Q2P α) (rel : ℕ)
    (sub_query_encoding : List (List α)) : List (List α) :=
  let particles := M.high_projection_attn.forward c sub_query_encoding
  let particles2 := M.high_projection_layer_norm_1.forward c particles
  let particles3 := addMat (M.high_projection_ffn.forward c particles2) particles2
  let particles4 := M.high_projection_layer_norm_2.forward c particles3
  M.projection1 c rel particles4

/-- The two refinement rounds of Q2P.intersection (lines 275-285), on one
batch element, after concatenation; the view call of the source is the
identity on an already flat [batch, k * num_particles, embedding] tensor. -/
def Q2P.intersectionInner (c : ScalarFuns α) (M : Q2P α)
    (flatten_particles : List (List α)) : List (List α) :=
  let f1 := M.intersection_attn.forward c flatten_particles
  let f2 := M.intersection_layer_norm_1.forward c f1
  let f3 := addMat (M.intersection_ffn.forward c f2) f2
  let f4 := M.intersection_layer_norm_2.forward c f3
  let f5 := M.intersection_attn.forward c f4
  let f6 := M.intersection_layer_norm_3.forward c f5
  let f7 := addMat (M.intersection_ffn.forward c f6) f6
  M.intersection_layer_norm_4.forward c f7

/-- Q2P.negation on one batch element (lines 291-305): two rounds of
attention/norm/FFN-residual/norm with the complement modules. -/
def Q2P.negation1 (c : ScalarFuns α) (M : Q2P α)
    (sub_query_encoding : List (List α)) : List (List α) :=
  let n1 := M.complement_attn.forward c sub_query_encoding
  let n2 := M.complement_layer_norm_1.forward c n1
  let n3 := addMat (M.complement_ffn.forward c n2) n2
  let n4 := M.complement_layer_norm_2.forward c n3
  let n5 := M.complement_attn.forward c n4
  let n6 := M.complement_layer_norm_3.forward c n5
  let n7 := addMat (M.complement_ffn.forward c n6) n6
  M.complement_layer_norm_4.forward c n7

/-- Sequence a list of optional values (None detection for torch.cat). -/
def seqOption {β : Type} : List (Option β) → Option (List β)
  | [] => some []
  | none :: _ => none
  | some x :: rest => (seqOption rest).map (fun xs => x :: xs)

/-- Concatenation of a nonempty list of batched particle sets along the
particle axis (torch.cat(list, dim=1)). -/
def catParticles : List (PBatch α) → PBatch α
  | [] => []
  | s :: rest => rest.foldl (fun acc t => List.zipWith (fun a b => a ++ b) acc t) s

/-- torch.cat(sub_query_result_list, dim=1): an empty list is a
RuntimeError, a None element (a degenerate sub-query result) a TypeError,
otherwise the particle axes are concatenated. -/
def torchCat1 : List (Option (PBatch α)) → Except String (PBatch α)
  | [] => Except.error "RuntimeError"
  | l =>
    match seqOption l with
    | none => Except.error "TypeError"
    | some ls => Except.ok (catParticles ls)

/-- Q2P.intersection (lines 253-289): concatenate the sub-query particle
sets along the particle axis, then the two refinement rounds. -/
def Q2P.intersection (c : ScalarFuns α) (M : Q2P α)
    (sub_query_encoding_list : List (Option (PBatch α))) : Except String (PBatch α) :=
  match torchCat1 sub_query_encoding_list with
  | .error e => .error e
  | .ok all => .ok (all.map (M.intersectionInner c))

/-- Q2P.union (lines 307-311): concatenation only. -/
def Q2P.union (M : Q2P α)
    (sub_query_encoding_list : List (Option (PBatch α))) : Except String (PBatch α) :=
  torchCat1 sub_query_encoding_list

/-- Batched Q2P.projection: the relation id batch is zipped with the batch
of particle sets. -/
def Q2P.projectionB (c : ScalarFuns α) (M : Q2P α) (rels : List ℕ)
    (sub : PBatch α) : PBatch α :=
  List.zipWith (M.projection1 c) rels sub

/-- Batched Q2P.higher_projection. -/
def Q2P.higher_projectionB (c : ScalarFuns α) (M : Q2P α) (rels : List ℕ)
    (sub : PBatch α) : PBatch α :=
  List.zipWith (M.higher_projection1 c) rels sub

/-- Batched Q2P.negation. -/
def Q2P.negationB (c : ScalarFuns α) (M : Q2P α) (sub : PBatch α) : PBatch α :=
  sub.map (M.negation1 c)

mutual
/-- A structured query as the Python code receives it: a tuple whose first
element is a tag string and whose remaining elements are either plain
lists of ids or nested sub-queries. -/
inductive SQTree : Type where
  | node : String → SQArgs → SQTree
/-- The elements of a structured-query tuple after the tag. -/
inductive SQArgs : Type where
  | nil : SQArgs
  | consIds : List ℕ → SQArgs → SQArgs
  | consSub : SQTree → SQArgs → SQArgs
end

/-- The outcome of the recursive Q2P.forward call on a plain id list: its
element 0 is an integer (or the list is empty), so the assertion on the
tag fails (or the indexing does). -/
def forwardIdsError {β : Type} (ids : List ℕ) : Except String β :=
  match ids with
  | [] => Except.error "IndexError"
  | _ :: _ => Except.error "AssertionError"

/-- The tag (element 0) of a structured query. -/
def SQTree.tag : SQTree → String
  | .node t _ => t

/-- The tags accepted by the assertion on line 314 of q2p.py. -/
def allowedTags : List String := ["p", "e", "i", "u", "n"]

/-- Propagation of a sub-query result into a tensor operation: a raised
error propagates, and a None result (the degenerate this_query_result of
the dead else branch) raises a TypeError as soon as a tensor operation
touches it. -/
def unwrapSub {α : Type} (x : Except String (Option (PBatch α))) : Except String (PBatch α) :=
  match x with
  | .error e => .error e
  | .ok none => .error "TypeError"
  | .ok (some r) => .ok r

/-- A successfully computed particle set, as a this_query_result value. -/
def okSome {α : Type} (x : Except String (PBatch α)) : Except String (Option (PBatch α)) :=
  match x with
  | .error e => .error e
  | .ok res => .ok (some res)

/-- The e branch of Q2P.forward: element 1 is the batch of entity ids;
each is embedded and expanded into particles. -/
def Q2P.forwardE (M : Q2P α) : SQArgs → Except String (Option (PBatch α))
  | .consIds entity_ids _ =>
    .ok (some (entity_ids.map (fun i =>
      M.to_particles.forward (M.entity_embedding.getD i []))))
  | .consSub _ _ => .error "TypeError"
  | .nil => .error "IndexError"

mutual
/-- Q2P.forward (lines 313-358 of q2p.py) without a label.  The outcome is
an error (a raised Python exception: failed assertion, tuple index out of
range, torch.tensor or torch.cat type errors) or the value of
this_query_result, which the dead final else branch of the source would
set to None. -/
def Q2P.forward (c : ScalarFuns α) (M : Q2P α) : SQTree → Except String (Option (PBatch α))
  | .node tag args =>
    if tag ∈ allowedTags then
      if tag = "p" then Q2P.forwardP c M args
      else if tag = "i" then
        okSome ((Q2P.forwardArgs c M args).bind (fun rs => M.intersection c rs))
      else if tag = "u" then
        okSome ((Q2P.forwardArgs c M args).bind (fun rs => M.union rs))
      else if tag = "n" then Q2P.forwardN c M args
      else if tag = "e" then Q2P.forwardE M args
      else .ok none
    else .error "AssertionError"

/-- The p branch of Q2P.forward: element 2 of the tuple is the sub-query
(a missing element is an IndexError and a plain id list fails inside the
recursive call), the recursion runs first, the sub-query tag selects
projection against higher_projection, and element 1 supplies the relation
ids (a nested tuple there fails torch.tensor). -/
def Q2P.forwardP (c : ScalarFuns α) (M : Q2P α) : SQArgs → Except String (Option (PBatch α))
  | .consIds rels (.consSub sub _) =>
    okSome ((unwrapSub (Q2P.forward c M sub)).map (fun r =>
      if sub.tag = "e" then M.projectionB c rels r else M.higher_projectionB c rels r))
  | .consIds _ (.consIds ids _) => forwardIdsError ids
  | .consSub _ (.consSub sub _) =>
    (Q2P.forward c M sub).bind (fun _ => Except.error "TypeError")
  | .consSub _ (.consIds ids _) => forwardIdsError ids
  | _ => .error "IndexError"

/-- The n branch of Q2P.forward: element 1 is the single sub-query. -/
def Q2P.forwardN (c : ScalarFuns α) (M : Q2P α) : SQArgs → Except String (Option (PBatch α))
  | .consSub sub _ =>
    okSome ((unwrapSub (Q2P.forward c M sub)).map (fun r => M.negationB c r))
  | .consIds ids _ => forwardIdsError ids
  | .nil => .error "IndexError"

/-- The sub-query loop of the i and u branches: forward every element
after the tag in order.  A plain id list in sub-query position makes the
recursive Q2P.forward call fail at once (its element 0 is an integer, so
the assertion fails, or the list is empty and indexing fails), matching
the source. -/
def Q2P.forwardArgs (c : ScalarFuns α) (M : Q2P α) : SQArgs → Except String (List (Option (PBatch α)))
  | .nil => .ok []
  | .consIds ids _ => forwardIdsError ids
  | .consSub t rest =>
    (Q2P.forward c M t).bind (fun r => (Q2P.forwardArgs c M rest).map (fun rs => r :: rs))
end


/-! Well-formedness of parameter shapes, as produced by Q2P.__init__ with
embedding dimension d: every nn.Linear is d × d with a length-d bias,
every LayerNorm has length-d scale and shift, and the attention modules
carry hidden_size = d. -/

/-- A matrix all of whose rows have length d. -/
@[reducible] def rectangular (d : ℕ) (m : List (List α)) : Prop := ∀ r ∈ m, r.length = d

/-- Shape of an nn.Linear(d, d) layer. -/
@[reducible] def Linear.wf (L : Linear α) (d : ℕ) : Prop :=
  L.weight.length = d ∧ rectangular d L.weight ∧ L.bias.length = d

/-- Shape of a LayerNorm(d) module. -/
@[reducible] def LayerNorm.wf (L : LayerNorm α) (d : ℕ) : Prop :=
  L.weight.length = d ∧ L.bias.length = d

/-- Shape of a SelfAttention(d) module. -/
@[reducible] def SelfAttention.wf (A : SelfAttention α) (d : ℕ) : Prop :=
  A.query.wf d ∧ A.key.wf d ∧ A.value.wf d ∧ A.hidden_size = d

/-- Shape of an FFN(d) module. -/
@[reducible] def FFN.wf (F : FFN α) (d : ℕ) : Prop :=
  F.linear1.wf d ∧ F.linear2.wf d

/-- Shape of a ParticleCrusher(d, num_particles) module. -/
@[reducible] def ParticleCrusher.wf (C : ParticleCrusher α) (d : ℕ) : Prop :=
  C.off_sets.length = C.num_particles ∧ rectangular d C.off_sets

/-- Shape of the whole Q2P model, as its constructor builds it. -/
@[reducible] def Q2P.wf (M : Q2P α) : Prop :=
  M.entity_embedding.length = M.num_entities ∧
  rectangular M.embedding_size M.entity_embedding ∧
  M.relation_embedding.length = M.num_relations ∧
  rectangular M.embedding_size M.relation_embedding ∧
  M.to_particles.wf M.embedding_size ∧
  M.to_particles.num_particles = M.num_particles ∧
  M.projection_layer_norm_1.wf M.embedding_size ∧
  M.projection_layer_norm_2.wf M.embedding_size ∧
  M.projection_self_attn.wf M.embedding_size ∧
  M.projection_Wz.wf M.embedding_size ∧
  M.projection_Uz.wf M.embedding_size ∧
  M.projection_Wr.wf M.embedding_size ∧
  M.projection_Ur.wf M.embedding_size ∧
  M.projection_Wh.wf M.embedding_size ∧
  M.projection_Uh.wf M.embedding_size ∧
  M.high_projection_attn.wf M.embedding_size ∧
  M.high_projection_ffn.wf M.embedding_size ∧
  M.high_projection_layer_norm_1.wf M.embedding_size ∧
  M.high_projection_layer_norm_2.wf M.embedding_size ∧
  M.intersection_attn.wf M.embedding_size ∧
  M.intersection_ffn.wf M.embedding_size ∧
  M.intersection_layer_norm_1.wf M.embedding_size ∧
  M.intersection_layer_norm_2.wf M.embedding_size ∧
  M.intersection_layer_norm_3.wf M.embedding_size ∧
  M.intersection_layer_norm_4.wf M.embedding_size ∧
  M.complement_attn.wf M.embedding_size ∧
  M.complement_ffn.wf M.embedding_size ∧
  M.complement_layer_norm_1.wf M.embedding_size ∧
  M.complement_layer_norm_2.wf M.embedding_size ∧
  M.complement_layer_norm_3.wf M.embedding_size ∧
  M.complement_layer_norm_4.wf M.embedding_size

/-- Reindexing of the particle axis: row i of the result is row σ(i) of
the input.  When σ enumerates the positions 0 .. n-1 exactly once this is
a permutation of the particles. -/
def applyPerm (σ : List ℕ) (m : List (List α)) : List (List α) :=
  σ.map (fun i => m.getD i [])

/-! Specification-side definitions, for refinement comparisons.  Each one
transcribes the natural-language specification, to be compared with the
definitions above, which transcribe the source. -/

/-- Self-attention as the specification describes it: the query, key and
value linear layers each produce their own projection of the input, and
otherwise the same scaled dot-product attention pipeline. -/
def SelfAttention.forwardIntended (c : ScalarFuns α) (A : SelfAttention α)
    (particles : List (List α)) : List (List α) :=
  let K := A.key.applyMat particles
  let V := A.value.applyMat particles
  let Q := A.query.applyMat particles
  let attention_scores := matmulT Q K
  let attention_scores2 :=
    attention_scores.map (fun row => row.map (fun t => t / c.sqrtf ((A.hidden_size : ℕ) : α)))
  let attention_probs := attention_scores2.map (softmaxRow c.expf)
  matmul A.hidden_size attention_probs V

/-- The projection operator as the specification describes it, per batch
element: relation embedding broadcast over particle slots, update gate z,
reset gate r, candidate h_hat, new particles (1-z)*old + z*h_hat, then
normalization, one self-attention pass and a second normalization. -/
def Q2P.projectionSpec1 (c : ScalarFuns α) (M : Q2P α) (rel : ℕ)
    (sub_query_encoding : List (List α)) : List (List α) :=
  let relv := M.relation_embedding.getD rel []
  let updated :=
    sub_query_encoding.map (fun p =>
      let z := (addVec (M.projection_Wz.apply relv) (M.projection_Uz.apply p)).map c.sigmoidf
      let r := (addVec (M.projection_Wr.apply relv) (M.projection_Ur.apply p)).map c.sigmoidf
      let h_hat := (addVec (M.projection_Wh.apply relv)
        (M.projection_Uh.apply (mulVec p r))).map c.tanhf
      addVec (mulVec (z.map (fun t => 1 - t)) p) (mulVec z h_hat))
  M.projection_layer_norm_2.forward c
    (M.projection_self_attn.forward c (M.projection_layer_norm_1.forward c updated))

/-- Two refinement rounds with a single attention module and a single FFN
module shared between the rounds, and four distinct layer norms:
LN4 then FFN-residual after LN3 after Attn after LN2 after FFN-residual
after LN1 after Attn, reading right to left. -/
def twoRoundRefine (c : ScalarFuns α) (attn : SelfAttention α) (ffn : FFN α)
    (ln1 ln2 ln3 ln4 : LayerNorm α) (x : List (List α)) : List (List α) :=
  let r1 := attn.forward c x
  let r2 := ln1.forward c r1
  let r3 := addMat (ffn.forward c r2) r2
  let r4 := ln2.forward c r3
  let r5 := attn.forward c r4
  let r6 := ln3.forward c r5
  let r7 := addMat (ffn.forward c r6) r6
  ln4.forward c r7

mutual
/-- Whether a structured query contains, anywhere, a node whose tag is not
one of the five recognized tags (the containment reading of the
malformed-query claim). -/
def SQTree.hasBadTag : SQTree → Bool
  | .node t a => (!(allowedTags.contains t)) || a.anyBadTag
/-- Whether any sub-query among the arguments contains an unrecognized
tag. -/
def SQArgs.anyBadTag : SQArgs → Bool
  | .nil => false
  | .consIds _ r => r.anyBadTag
  | .consSub s r => s.hasBadTag || r.anyBadTag
end

/-! Concrete instances over ℚ, used to witness the theorems below on
explicit inputs. -/

/-- Scalar functions instantiated with the identity; the theorems hold for
any choice. -/
def c0 : ScalarFuns ℚ := ⟨id, id, id, id, id⟩

/-- A 1 × 1 identity linear layer. -/
def L0 : Linear ℚ := ⟨[[1]], [0]⟩

/-- A dimension-1 layer norm with unit scale and zero shift. -/
def LN0 : LayerNorm ℚ := ⟨[1], [0], 0⟩

/-- A dimension-1 self-attention module whose three layers coincide. -/
def SA0 : SelfAttention ℚ := ⟨L0, L0, L0, 1⟩

/-- A dimension-1 feed-forward module. -/
def F0 : FFN ℚ := ⟨L0, L0⟩

/-- A tiny well-formed Q2P model: one entity, one relation, embedding
dimension 1, one particle. -/
def M0 : Q2P ℚ :=
  ⟨1, 1, 1, 1, [[0]], [[0]], ⟨1, [[0]]⟩, LN0, LN0, SA0, L0, L0, L0, L0, L0, L0,
   SA0, F0, LN0, LN0, SA0, F0, LN0, LN0, LN0, LN0, SA0, F0, LN0, LN0, LN0, LN0⟩

/-- A dimension-1 self-attention module whose value layer differs from its
query layer (weight 2 instead of 1). -/
def A1 : SelfAttention ℚ := ⟨L0, L0, ⟨[[2]], [0]⟩, 1⟩

/-- A one-particle input set for the attention divergence. -/
def x1 : List (List ℚ) := [[1]]

/-- A two-particle input set for the permutation witness. -/
def x0 : List (List ℚ) := [[1], [2]]

/-- A query tree whose root is a well-formed entity anchor but which
contains, in an argument position the interpreter never reads, a sub-query
with the unrecognized tag x. -/
def t0 : SQTree :=
  SQTree.node "e" (SQArgs.consIds [0] (SQArgs.consSub (SQTree.node "x" SQArgs.nil) SQArgs.nil))

/-- An entity-anchor query used by the dispatch witness. -/
def te : SQTree := SQTree.node "e" (SQArgs.consIds [0] SQArgs.nil)

/-! Shape lemmas for the basic operations. -/

theorem length_addVec (v w : List α) : (addVec v w).length = min v.length w.length := by
  simp [addVec]

theorem length_mulVec (v w : List α) : (mulVec v w).length = min v.length w.length := by
  simp [mulVec]

theorem length_zeroVec (d : ℕ) : (zeroVec (α := α) d).length = d := by
  simp [zeroVec]

theorem length_weightedSum (d : ℕ) (ws : List α) (rows : List (List α))
    (h : ∀ r ∈ rows, r.length = d) : (weightedSum d ws rows).length = d := by
  induction ws generalizing rows with
  | nil =>
    cases rows with
    | nil => simp [weightedSum, zeroVec]
    | cons r rs => simp [weightedSum, zeroVec]
  | cons w ws ih =>
    cases rows with
    | nil => simp [weightedSum, zeroVec]
    | cons r rs =>
      have hr : r.length = d := h r (by simp)
      have hrs : ∀ x ∈ rs, x.length = d := fun x hx => h x (by simp [hx])
      simp [weightedSum, length_addVec, hr, ih rs hrs]

theorem length_Linear_apply (L : Linear α) (v : List α) :
    (L.apply v).length = min L.weight.length L.bias.length := by
  simp [Linear.apply]

theorem length_Linear_apply_wf {d : ℕ} (L : Linear α) (hL : L.wf d) (v : List α) :
    (L.apply v).length = d := by
  rcases hL with ⟨h1, _, h3⟩
  simp [length_Linear_apply, h1, h3]

theorem length_LayerNorm_forwardRow {d : ℕ} (c : ScalarFuns α) (L : LayerNorm α)
    (hL : L.wf d) (x : List α) (hx : x.length = d) :
    (L.forwardRow c x).length = d := by
  rcases hL with ⟨h1, h2⟩
  simp [LayerNorm.forwardRow, length_addVec, length_mulVec, h1, h2, hx]

theorem length_LayerNorm_forward (c : ScalarFuns α) (L : LayerNorm α) (m : List (List α)) :
    (L.forward c m).length = m.length := by
  simp [LayerNorm.forward]

theorem rect_LayerNorm_forward {d : ℕ} (c : ScalarFuns α) (L : LayerNorm α)
    (hL : L.wf d) (m : List (List α)) (hm : rectangular d m) :
    rectangular d (L.forward c m) := by
  intro r hr
  rcases List.mem_map.mp hr with ⟨x, hx, rfl⟩
  exact length_LayerNorm_forwardRow c L hL x (hm x hx)

theorem length_FFN_forwardRow {d : ℕ} (c : ScalarFuns α) (F : FFN α)
    (hF : F.wf d) (v : List α) : (F.forwardRow c v).length = d :=
  length_Linear_apply_wf _ hF.2 _

theorem length_FFN_forward (c : ScalarFuns α) (F : FFN α) (m : List (List α)) :
    (F.forward c m).length = m.length := by
  simp [FFN.forward]

theorem rect_FFN_forward {d : ℕ} (c : ScalarFuns α) (F : FFN α)
    (hF : F.wf d) (m : List (List α)) : rectangular d (F.forward c m) := by
  intro r hr
  rcases List.mem_map.mp hr with ⟨x, _, rfl⟩
  exact length_FFN_forwardRow c F hF x

theorem length_SelfAttention_forward (c : ScalarFuns α) (A : SelfAttention α)
    (x : List (List α)) : (A.forward c x).length = x.length := by
  simp [SelfAttention.forward, matmul, matmulT, Linear.applyMat]

theorem rect_SelfAttention_forward {d : ℕ} (c : ScalarFuns α) (A : SelfAttention α)
    (hA : A.wf d) (x : List (List α)) : rectangular d (A.forward c x) := by
  intro r hr
  rcases hA with ⟨hq, _, _, hd⟩
  simp only [SelfAttention.forward, matmul] at hr
  rcases List.mem_map.mp hr with ⟨p, _, rfl⟩
  subst hd
  apply length_weightedSum
  intro v hv
  simp only [Linear.applyMat] at hv
  rcases List.mem_map.mp hv with ⟨y, _, rfl⟩
  exact length_Linear_apply_wf _ hq _

theorem length_addMat (a b : List (List α)) : (addMat a b).length = min a.length b.length := by
  simp [addMat]

theorem rect_addMat {d : ℕ} (a b : List (List α)) (ha : rectangular d a)
    (hb : rectangular d b) : rectangular d (addMat a b) := by
  induction a generalizing b with
  | nil => intro r hr; simp [addMat] at hr
  | cons x xs ih =>
    cases b with
    | nil => intro r hr; simp [addMat] at hr
    | cons y ys =>
      intro r hr
      simp only [addMat, List.zipWith_cons_cons, List.mem_cons] at hr
      rcases hr with hr | hr
      · subst hr
        simp [length_addVec, ha x (by simp), hb y (by simp)]
      · exact ih ys (fun s hs => ha s (List.mem_cons_of_mem _ hs))
          (fun s hs => hb s (List.mem_cons_of_mem _ hs)) r hr

/-! Generic list-indexing lemmas used throughout. -/

theorem getD_map {β γ : Type} (f : β → γ) (l : List β) (i : ℕ) (d1 : γ) (d2 : β)
    (h : i < l.length) : (l.map f).getD i d1 = f (l.getD i d2) := by
  induction l generalizing i with
  | nil => simp at h
  | cons x xs ih =>
    cases i with
    | zero => simp
    | succ j =>
      simp only [List.map_cons, List.getD_cons_succ]
      exact ih j (by simpa using h)

theorem getD_zipWith {β γ δ : Type} (f : β → γ → δ) (a : List β) (b : List γ) (i : ℕ)
    (da : β) (db : γ) (dd : δ) (ha : i < a.length) (hb : i < b.length) :
    (List.zipWith f a b).getD i dd = f (a.getD i da) (b.getD i db) := by
  induction a generalizing b i with
  | nil => simp at ha
  | cons x xs ih =>
    cases b with
    | nil => simp at hb
    | cons y ys =>
      cases i with
      | zero => simp
      | succ j =>
        simp only [List.zipWith_cons_cons, List.getD_cons_succ]
        exact ih ys j (by simpa using ha) (by simpa using hb)

theorem getD_range_map {β : Type} (l : List β) (d : β) (n : ℕ) (h : n = l.length) :
    (List.range n).map (fun i => l.getD i d) = l := by
  subst h
  apply List.ext_getElem
  · simp
  · intro i h1 h2
    simp [List.getD_eq_getElem, List.getElem?_eq_getElem h2]

/-! Shape lemmas for the Q2P operators. -/

theorem length_ParticleCrusher_forward (C : ParticleCrusher α) (e : List α) :
    (C.forward e).length = C.off_sets.length := by
  simp [ParticleCrusher.forward]

theorem rect_ParticleCrusher_forward {d : ℕ} (C : ParticleCrusher α) (hC : C.wf d)
    (e : List α) (he : e.length = d) : rectangular d (C.forward e) := by
  intro r hr
  rcases List.mem_map.mp hr with ⟨off, hoff, rfl⟩
  simp [length_addVec, he, hC.2 off hoff]

theorem length_projection1 (c : ScalarFuns α) (M : Q2P α) (rel : ℕ)
    (sub : List (List α)) : (M.projection1 c rel sub).length = sub.length := by
  simp [Q2P.projection1, length_LayerNorm_forward, length_SelfAttention_forward]

theorem rect_projection1 (c : ScalarFuns α) (M : Q2P α) (hwf : M.wf) (rel : ℕ)
    (sub : List (List α)) :
    rectangular M.embedding_size (M.projection1 c rel sub) := by
  obtain ⟨-, -, -, -, -, -, -, h8, h9, -, -, -, -, -, -, -, -, -, -, -, -, -, -, -,
    -, -, -, -, -, -, -⟩ := hwf
  exact rect_LayerNorm_forward c _ h8 _ (rect_SelfAttention_forward c _ h9 _)

theorem length_negation1 (c : ScalarFuns α) (M : Q2P α) (sub : List (List α)) :
    (M.negation1 c sub).length = sub.length := by
  simp [Q2P.negation1, length_LayerNorm_forward, length_SelfAttention_forward,
    length_addMat, length_FFN_forward, Nat.min_self]

theorem rect_negation1 (c : ScalarFuns α) (M : Q2P α) (hwf : M.wf)
    (sub : List (List α)) : rectangular M.embedding_size (M.negation1 c sub) := by
  obtain ⟨-, -, -, -, -, -, -, -, -, -, -, -, -, -, -, -, -, -, -, -, -, -, -, -,
    -, h26, h27, h28, h29, h30, h31⟩ := hwf
  apply rect_LayerNorm_forward c _ h31
  apply rect_addMat
  · exact rect_FFN_forward c _ h27 _
  · apply rect_LayerNorm_forward c _ h30
    exact rect_SelfAttention_forward c _ h26 _

theorem length_intersectionInner (c : ScalarFuns α) (M : Q2P α) (x : List (List α)) :
    (M.intersectionInner c x).length = x.length := by
  simp [Q2P.intersectionInner, length_LayerNorm_forward, length_SelfAttention_forward,
    length_addMat, length_FFN_forward, Nat.min_self]

theorem rect_intersectionInner (c : ScalarFuns α) (M : Q2P α) (hwf : M.wf)
    (x : List (List α)) : rectangular M.embedding_size (M.intersectionInner c x) := by
  obtain ⟨-, -, -, -, -, -, -, -, -, -, -, -, -, -, -, -, -, -, -, h20, h21, -, -, h24,
    h25, -, -, -, -, -, -⟩ := hwf
  apply rect_LayerNorm_forward c _ h25
  apply rect_addMat
  · exact rect_FFN_forward c _ h21 _
  · apply rect_LayerNorm_forward c _ h24
    exact rect_SelfAttention_forward c _ h20 _

theorem length_higher_projection1 (c : ScalarFuns α) (M : Q2P α) (rel : ℕ)
    (sub : List (List α)) : (M.higher_projection1 c rel sub).length = sub.length := by
  simp [Q2P.higher_projection1, length_projection1, length_LayerNorm_forward,
    length_SelfAttention_forward, length_addMat, length_FFN_forward, Nat.min_self]

theorem rect_higher_projection1 (c : ScalarFuns α) (M : Q2P α) (hwf : M.wf) (rel : ℕ)
    (sub : List (List α)) :
    rectangular M.embedding_size (M.higher_projection1 c rel sub) :=
  rect_projection1 c M hwf rel _

theorem foldl_zipWith_append_getD (rest : List (PBatch α)) (acc : PBatch α) (b : ℕ)
    (hlen : ∀ s ∈ rest, s.length = acc.length) (hb : b < acc.length) :
    (rest.foldl (fun a t => List.zipWith (fun x y => x ++ y) a t) acc).getD b [] =
      (acc.getD b []) ++ (rest.map (fun s => s.getD b [])).flatten := by
  induction rest generalizing acc with
  | nil => simp
  | cons t rest ih =>
    have ht : t.length = acc.length := hlen t (by simp)
    have hacc : (List.zipWith (fun x y => x ++ y) acc t).length = acc.length := by
      simp [ht]
    rw [List.foldl_cons, ih _ (fun s hs => by
        rw [hacc]; exact hlen s (List.mem_cons_of_mem _ hs)) (by rw [hacc]; exact hb)]
    rw [getD_zipWith _ _ _ _ [] [] [] hb (by rw [ht]; exact hb)]
    simp

theorem catParticles_getD (ls : List (PBatch α)) (B b : ℕ) (hne : ls ≠ [])
    (hlen : ∀ s ∈ ls, s.length = B) (hb : b < B) :
    (catParticles ls).getD b [] = (ls.map (fun s => s.getD b [])).flatten := by
  cases ls with
  | nil => exact absurd rfl hne
  | cons s rest =>
    have hs : s.length = B := hlen s (by simp)
    have h := foldl_zipWith_append_getD rest s b
      (fun t ht => by rw [hs]; exact hlen t (List.mem_cons_of_mem _ ht)) (by rw [hs]; exact hb)
    simpa [catParticles] using h



/-! Machinery for the permutation covariance of self-attention. -/

theorem getD_replicate_zero (d k : ℕ) : (List.replicate d (0 : α)).getD k 0 = 0 := by
  induction d generalizing k with
  | zero => simp
  | succ n ih =>
    cases k with
    | zero => simp [List.replicate_succ]
    | succ j => simp [List.replicate_succ, ih]

theorem weightedSum_getD (d : ℕ) (ws : List α) (rows : List (List α))
    (hl : ws.length = rows.length) (hr : ∀ r ∈ rows, r.length = d) (k : ℕ) (hk : k < d) :
    (weightedSum d ws rows).getD k 0 =
      (List.zipWith (fun w r => w * r.getD k 0) ws rows).sum := by
  induction ws generalizing rows with
  | nil =>
    cases rows with
    | nil => simp [weightedSum, zeroVec, getD_replicate_zero]
    | cons r rs => simp at hl
  | cons w ws ih =>
    cases rows with
    | nil => simp at hl
    | cons r rs =>
      have hrd : r.length = d := hr r (by simp)
      have hrs : ∀ y ∈ rs, y.length = d := fun y hy => hr y (List.mem_cons_of_mem _ hy)
      have hk1 : k < (r.map (fun t => w * t)).length := by simpa [hrd] using hk
      have hk2 : k < (weightedSum d ws rs).length := by
        rw [length_weightedSum d ws rs hrs]; exact hk
      rw [show weightedSum d (w :: ws) (r :: rs) =
        addVec (r.map (fun t => w * t)) (weightedSum d ws rs) from rfl]
      rw [addVec, getD_zipWith _ _ _ k 0 0 0 hk1 hk2,
        getD_map _ _ k 0 0 (by simpa [hrd] using hk),
        List.zipWith_cons_cons, List.sum_cons, ih rs (by simpa using hl) hrs]

theorem zipWith_map_same {β γ δ ε : Type} (f : γ → δ → ε) (u : β → γ) (v : β → δ)
    (l : List β) :
    List.zipWith f (l.map u) (l.map v) = l.map (fun a => f (u a) (v a)) := by
  induction l with
  | nil => simp
  | cons x xs ih => simp [ih]

theorem list_eq_of_getD (a b : List α) (hlen : a.length = b.length)
    (h : ∀ k, k < a.length → a.getD k 0 = b.getD k 0) : a = b := by
  apply List.ext_getElem hlen
  intro i h1 h2
  have hi := h i h1
  rwa [List.getD_eq_getElem _ _ h1, List.getD_eq_getElem _ _ h2] at hi

theorem applyPerm_map (σ : List ℕ) (x : List (List α)) (f : List α → List α)
    (hmem : ∀ i ∈ σ, i < x.length) :
    applyPerm σ (x.map f) = (applyPerm σ x).map f := by
  simp only [applyPerm, List.map_map]
  apply List.map_congr_left
  intro i hi
  simp only [Function.comp]
  exact getD_map f x i [] [] (hmem i hi)

theorem applyPerm_perm (σ : List ℕ) (x : List (List α))
    (hσ : σ.Perm (List.range x.length)) : (applyPerm σ x).Perm x := by
  have h2 : (List.range x.length).map (fun i => x.getD i []) = x :=
    getD_range_map x [] _ rfl
  have h3 := hσ.map (fun i => x.getD i [])
  rw [h2] at h3
  exact h3

theorem forward_row_form (c : ScalarFuns α) (A : SelfAttention α) (x : List (List α)) :
    A.forward c x = x.map (fun xi =>
      weightedSum A.hidden_size
        (softmaxRow c.expf (x.map (fun xj =>
          dot (A.query.apply xi) (A.query.apply xj) / c.sqrtf ((A.hidden_size : ℕ) : α))))
        (x.map A.query.apply)) := by
  simp only [SelfAttention.forward, matmulT, matmul, Linear.applyMat, List.map_map,
    Function.comp_def]

theorem softmaxRow_map (expf : α → α) {β : Type} (g : β → α) (l : List β) :
    softmaxRow expf (l.map g) =
      l.map (fun a => expf (g a) / (l.map (fun b => expf (g b))).sum) := by
  simp only [softmaxRow, List.map_map, Function.comp_def]

theorem attn_row_perm (c : ScalarFuns α) (A : SelfAttention α)
    (hW : A.query.weight.length = A.hidden_size)
    (hB : A.query.bias.length = A.hidden_size)
    (y yp : List (List α)) (hperm : yp.Perm y) (q : List α) :
    weightedSum A.hidden_size
      (softmaxRow c.expf (yp.map (fun xj =>
        dot q (A.query.apply xj) / c.sqrtf ((A.hidden_size : ℕ) : α))))
      (yp.map A.query.apply) =
    weightedSum A.hidden_size
      (softmaxRow c.expf (y.map (fun xj =>
        dot q (A.query.apply xj) / c.sqrtf ((A.hidden_size : ℕ) : α))))
      (y.map A.query.apply) := by
  set d := A.hidden_size with hd
  set g := fun xj => dot q (A.query.apply xj) / c.sqrtf ((d : ℕ) : α) with hg
  have hlenrow : ∀ (z : List (List α)) (r : List α), r ∈ z.map A.query.apply → r.length = d := by
    intro z r hr
    rcases List.mem_map.mp hr with ⟨v, -, rfl⟩
    rw [length_Linear_apply, hW, hB, Nat.min_self]
  have hZ : (yp.map (fun b => c.expf (g b))).sum = (y.map (fun b => c.expf (g b))).sum :=
    (hperm.map (fun b => c.expf (g b))).sum_eq
  have hsml : ∀ (z : List (List α)), (softmaxRow c.expf (z.map g)).length = z.length := by
    intro z
    simp [softmaxRow]
  apply list_eq_of_getD
  · rw [length_weightedSum d _ _ (hlenrow yp), length_weightedSum d _ _ (hlenrow y)]
  · intro k hk
    rw [length_weightedSum d _ _ (hlenrow yp)] at hk
    rw [weightedSum_getD d _ _ (by simp [hsml]) (hlenrow yp) k hk,
      weightedSum_getD d _ _ (by simp [hsml]) (hlenrow y) k hk,
      softmaxRow_map, softmaxRow_map,
      zipWith_map_same (fun w r => w * r.getD k 0)
        (fun a => c.expf (g a) / (yp.map (fun b => c.expf (g b))).sum)
        A.query.apply yp,
      zipWith_map_same (fun w r => w * r.getD k 0)
        (fun a => c.expf (g a) / (y.map (fun b => c.expf (g b))).sum)
        A.query.apply y,
      hZ]
    exact (hperm.map (fun a =>
      c.expf (g a) / (y.map (fun b => c.expf (g b))).sum * (A.query.apply a).getD k 0)).sum_eq

/-! Helper lemmas for the scoring maximum and the interpreter. -/

theorem foldl_max_spec (x : α) (xs : List α) :
    xs.foldl max x ∈ x :: xs ∧ ∀ y ∈ x :: xs, y ≤ xs.foldl max x := by
  induction xs generalizing x with
  | nil => simp
  | cons z zs ih =>
    obtain ⟨ihm, ihb⟩ := ih (max x z)
    rw [List.foldl_cons]
    constructor
    · rcases List.mem_cons.mp ihm with h | h
      · rcases max_choice x z with hc | hc
        · rw [h, hc]
          exact List.mem_cons_self _ _
        · rw [h, hc]
          exact List.mem_cons_of_mem _ (List.mem_cons_self _ _)
      · exact List.mem_cons_of_mem _ (List.mem_cons_of_mem _ h)
    · intro y hy
      rcases List.mem_cons.mp hy with rfl | hy2
      · exact le_trans (le_max_left _ _) (ihb _ (List.mem_cons_self _ _))
      · rcases List.mem_cons.mp hy2 with rfl | hy3
        · exact le_trans (le_max_right _ _) (ihb _ (List.mem_cons_self _ _))
        · exact ihb _ (List.mem_cons_of_mem _ hy3)

theorem vecMax_spec (l : List α) (h : l ≠ []) :
    vecMax l ∈ l ∧ ∀ y ∈ l, y ≤ vecMax l := by
  cases l with
  | nil => exact absurd rfl h
  | cons x xs => simpa [vecMax] using foldl_max_spec x xs

theorem dot_comm (v w : List α) : dot v w = dot w v := by
  unfold dot
  rw [List.zipWith_comm_of_comm (fun a b => a * b) mul_comm]

theorem getD_range (n e : ℕ) (h : e < n) : (List.range n).getD e 0 = e := by
  rw [List.getD_eq_getElem _ _ (by simpa using h)]
  simp

theorem okSome_ne_none {β : Type} (x : Except String (PBatch β)) :
    okSome x ≠ Except.ok none := by
  cases x <;> simp [okSome]

theorem forwardIdsError_ne_none {β : Type} (ids : List ℕ) :
    (forwardIdsError ids : Except String (Option (PBatch β))) ≠ Except.ok none := by
  cases ids <;> simp [forwardIdsError]

theorem forwardP_ne_none (c : ScalarFuns α) (M : Q2P α) (args : SQArgs) :
    Q2P.forwardP c M args ≠ Except.ok none := by
  rw [Q2P.forwardP.eq_def]
  split
  · exact okSome_ne_none _
  · exact forwardIdsError_ne_none _
  · cases Q2P.forward c M _ <;> simp [Except.bind]
  · exact forwardIdsError_ne_none _
  · simp

theorem forwardN_ne_none (c : ScalarFuns α) (M : Q2P α) (args : SQArgs) :
    Q2P.forwardN c M args ≠ Except.ok none := by
  cases args with
  | nil => simp [Q2P.forwardN]
  | consIds ids rest => exact forwardIdsError_ne_none _
  | consSub sub rest => exact okSome_ne_none _

theorem forwardE_ne_none (M : Q2P α) (args : SQArgs) :
    Q2P.forwardE M args ≠ Except.ok none := by
  cases args <;> simp [Q2P.forwardE]

theorem forward_bad_tag (c : ScalarFuns α) (M : Q2P α) (tag : String) (args : SQArgs)
    (h : tag ∉ allowedTags) :
    M.forward c (SQTree.node tag args) = Except.error "AssertionError" := by
  rw [Q2P.forward]
  exact if_neg h

theorem forward_ne_none_aux (c : ScalarFuns α) (M : Q2P α) (t : SQTree) :
    M.forward c t ≠ Except.ok none := by
  cases t with
  | node tag args =>
    rw [Q2P.forward]
    by_cases h1 : tag ∈ allowedTags
    · rw [if_pos h1]
      by_cases hp : tag = "p"
      · rw [if_pos hp]
        exact forwardP_ne_none c M args
      · rw [if_neg hp]
        by_cases hi : tag = "i"
        · rw [if_pos hi]
          exact okSome_ne_none _
        · rw [if_neg hi]
          by_cases hu : tag = "u"
          · rw [if_pos hu]
            exact okSome_ne_none _
          · rw [if_neg hu]
            by_cases hn : tag = "n"
            · rw [if_pos hn]
              exact forwardN_ne_none c M args
            · rw [if_neg hn]
              by_cases he : tag = "e"
              · rw [if_pos he]
                exact forwardE_ne_none M args
              · rw [if_neg he]
                simp [allowedTags] at h1
                rcases h1 with h1 | h1 | h1 | h1 | h1 <;> simp_all
    · rw [if_neg h1]
      simp

theorem M0_wf : M0.wf := by
  refine ⟨?_, ?_, ?_, ?_, ?_, ?_, ?_, ?_, ?_, ?_, ?_, ?_, ?_, ?_, ?_, ?_, ?_, ?_, ?_,
    ?_, ?_, ?_, ?_, ?_, ?_, ?_, ?_, ?_, ?_, ?_, ?_⟩ <;> decide

/-! Claim theorems. -/

/-- Claim C1 (counterexample): the self-attention of the source does not
compute the three projections with the query, key and value matrices
respectively.  On the module A1, whose value layer has weight 2 while the
query layer has weight 1, and the one-particle input x1, the source
computation differs from the specified computation. -/
theorem selfAttention_projections_counterexample :
    SelfAttention.forward c0 A1 x1 ≠ SelfAttention.forwardIntended c0 A1 x1 := by
  have h1 : SelfAttention.forward c0 A1 x1 = [[1]] := by with_unfolding_all rfl
  have h2 : SelfAttention.forwardIntended c0 A1 x1 = [[2]] := by with_unfolding_all rfl
  rw [h1, h2]
  intro h
  have h3 : (1 : ℚ) = 2 := by
    injection h with h4 h5
    injection h4 with h6 h7
  norm_num at h3

/-- Claim C1 (amended): for every input particle set, Set Self-Attention
computes K, V and Q all three with the query linear layer (the declared
key and value layers are unused), then scores (Q Kᵗ)/sqrt(dim), softmax
over the last axis, and the score-weighted sum of the (query-projected)
value vectors; the output has as many particles as the input. -/
theorem selfAttention_forward_query_only (c : ScalarFuns α) (A : SelfAttention α)
    (x : List (List α)) :
    SelfAttention.forward c A x =
      SelfAttention.forwardIntended c ⟨A.query, A.query, A.query, A.hidden_size⟩ x ∧
    (SelfAttention.forward c A x).length = x.length :=
  ⟨rfl, length_SelfAttention_forward c A x⟩

/-- Claim C8: the key and value linear layers of SelfAttention never
influence the output; two modules agreeing on the query layer and the
hidden size produce identical outputs on every input. -/
theorem selfAttention_key_value_irrelevant (c : ScalarFuns α) (q k1 v1 k2 v2 : Linear α)
    (hs : ℕ) (x : List (List α)) :
    SelfAttention.forward c ⟨q, k1, v1, hs⟩ x = SelfAttention.forward c ⟨q, k2, v2, hs⟩ x :=
  rfl

/-- Claim C4: projection looks up the relation embedding, broadcasts it
over the particle slots, computes the GRU-style gates z and r, the
candidate, and the convex combination, then layer norm, one
self-attention pass and a second layer norm, with dropout the identity;
and it preserves the particle count. -/
theorem projection_gru_refinement (c : ScalarFuns α) (M : Q2P α) (rel : ℕ)
    (sub : List (List α)) :
    M.projection1 c rel sub = M.projectionSpec1 c rel sub ∧
    (M.projection1 c rel sub).length = sub.length :=
  ⟨rfl, length_projection1 c M rel sub⟩

/-- Claim C10: the two refinement rounds of both Intersection and
Negation use one shared attention module and one shared feed-forward
module, with four distinct layer norms; each operator is exactly the
two-round composition with a single Attn and a single FFN. -/
theorem intersection_negation_shared_two_rounds (c : ScalarFuns α) (M : Q2P α)
    (x : List (List α)) :
    M.intersectionInner c x = twoRoundRefine c M.intersection_attn M.intersection_ffn
      M.intersection_layer_norm_1 M.intersection_layer_norm_2
      M.intersection_layer_norm_3 M.intersection_layer_norm_4 x ∧
    M.negation1 c x = twoRoundRefine c M.complement_attn M.complement_ffn
      M.complement_layer_norm_1 M.complement_layer_norm_2
      M.complement_layer_norm_3 M.complement_layer_norm_4 x :=
  ⟨rfl, rfl⟩

/-- Claim C9: forward never returns None.  The assertion rejects every
tag outside p, e, i, u, n by raising before dispatch, and no evaluation
of forward yields the value the dead final else branch would produce. -/
theorem forward_never_none (c : ScalarFuns α) (M : Q2P α) :
    (∀ (tag : String) (args : SQArgs), tag ∉ allowedTags →
      M.forward c (SQTree.node tag args) = Except.error "AssertionError") ∧
    ∀ t : SQTree, M.forward c t ≠ Except.ok none :=
  ⟨fun tag args h => forward_bad_tag c M tag args h,
   fun t => forward_ne_none_aux c M t⟩

/-- Witness for C9 at the unrecognized root tag x. -/
theorem forward_never_none_witness :
    ("x" ∉ allowedTags) ∧
    M0.forward c0 (SQTree.node "x" SQArgs.nil) = Except.error "AssertionError" :=
  ⟨by decide, (forward_never_none c0 M0).1 "x" SQArgs.nil (by decide)⟩

/-- Claim C2 (counterexample): a query tree can contain an unrecognized
tag (here the sub-expression with tag x, sitting in an argument position
of an e node that forward never reads) while forward neither raises nor
returns None: it returns a particle set. -/
theorem forward_ignores_unevaluated_malformed_node :
    t0.hasBadTag = true ∧ M0.forward c0 t0 = Except.ok (some [[[0]]]) :=
  ⟨by decide, by with_unfolding_all rfl⟩

/-- Claim C2 (amended): forward raises for every query whose root tag is
unrecognized, and for a p node with zero sub-queries (with or without a
relation-id list); and it never silently returns None in place of a
particle set.  Malformed nodes in argument positions that forward does
not evaluate are not detected. -/
theorem forward_malformed_root_errors (c : ScalarFuns α) (M : Q2P α) :
    (∀ (tag : String) (args : SQArgs), tag ∉ allowedTags →
      M.forward c (SQTree.node tag args) = Except.error "AssertionError") ∧
    (M.forward c (SQTree.node "p" SQArgs.nil) = Except.error "IndexError") ∧
    (∀ rels : List ℕ, M.forward c (SQTree.node "p" (SQArgs.consIds rels SQArgs.nil)) =
      Except.error "IndexError") ∧
    ∀ t : SQTree, M.forward c t ≠ Except.ok none := by
  refine ⟨fun tag args h => forward_bad_tag c M tag args h, ?_, ?_,
    fun t => forward_ne_none_aux c M t⟩
  · rw [Q2P.forward, if_pos (show ("p" : String) ∈ allowedTags by decide), if_pos rfl]
    rfl
  · intro rels
    rw [Q2P.forward, if_pos (show ("p" : String) ∈ allowedTags by decide), if_pos rfl]
    rfl

/-- Witness for C2 at the unrecognized root tag y and a p node with no
sub-query. -/
theorem forward_malformed_root_errors_witness :
    ("y" ∉ allowedTags) ∧
    M0.forward c0 (SQTree.node "y" SQArgs.nil) = Except.error "AssertionError" ∧
    M0.forward c0 (SQTree.node "p" (SQArgs.consIds [3] SQArgs.nil)) =
      Except.error "IndexError" :=
  ⟨by decide,
   (forward_malformed_root_errors c0 M0).1 "y" SQArgs.nil (by decide),
   (forward_malformed_root_errors c0 M0).2.2.1 [3]⟩


/-- Claim C3: every operator output has last dimension equal to the
embedding dimension; Projection, Higher-Order Projection, Negation and
Particle Expansion preserve the particle count (Expansion producing
num_particles); Intersection processes the concatenation of its operands,
whose particle count is the sum of the operand counts, preserving that
count, and Union returns exactly the concatenation, so on every batch
element its particle count is the sum of the operand counts. -/
theorem q2p_operator_shape_invariants (c : ScalarFuns α) (M : Q2P α) (hwf : M.wf) :
    (∀ (rel : ℕ) (sub : List (List α)),
      (M.projection1 c rel sub).length = sub.length ∧
      rectangular M.embedding_size (M.projection1 c rel sub)) ∧
    (∀ (rel : ℕ) (sub : List (List α)),
      (M.higher_projection1 c rel sub).length = sub.length ∧
      rectangular M.embedding_size (M.higher_projection1 c rel sub)) ∧
    (∀ sub : List (List α),
      (M.negation1 c sub).length = sub.length ∧
      rectangular M.embedding_size (M.negation1 c sub)) ∧
    (∀ e : List α, e.length = M.embedding_size →
      (M.to_particles.forward e).length = M.num_particles ∧
      rectangular M.embedding_size (M.to_particles.forward e)) ∧
    (∀ subs : List (List (List α)),
      (M.intersectionInner c subs.flatten).length = (subs.map List.length).sum ∧
      rectangular M.embedding_size (M.intersectionInner c subs.flatten)) ∧
    (∀ (ls : List (PBatch α)) (B b : ℕ), ls ≠ [] → (∀ t ∈ ls, t.length = B) → b < B →
      (catParticles ls).getD b [] = (ls.map (fun t => t.getD b [])).flatten ∧
      ((catParticles ls).getD b []).length =
        (ls.map (fun t => (t.getD b []).length)).sum ∧
      ((∀ t ∈ ls, rectangular M.embedding_size (t.getD b [])) →
        rectangular M.embedding_size ((catParticles ls).getD b []))) := by
  refine ⟨?_, ?_, ?_, ?_, ?_, ?_⟩
  · intro rel sub
    exact ⟨length_projection1 c M rel sub, rect_projection1 c M hwf rel sub⟩
  · intro rel sub
    exact ⟨length_higher_projection1 c M rel sub, rect_higher_projection1 c M hwf rel sub⟩
  · intro sub
    exact ⟨length_negation1 c M sub, rect_negation1 c M hwf sub⟩
  · intro e he
    obtain ⟨-, -, -, -, hc, hnp, -, -, -, -, -, -, -, -, -, -, -, -, -, -, -, -, -, -,
      -, -, -, -, -, -, -⟩ := hwf
    constructor
    · rw [length_ParticleCrusher_forward, hc.1, hnp]
    · exact rect_ParticleCrusher_forward _ hc e he
  · intro subs
    constructor
    · rw [length_intersectionInner, List.length_flatten]
    · exact rect_intersectionInner c M hwf _
  · intro ls B b hne hlen hb
    have hcat := catParticles_getD ls B b hne hlen hb
    refine ⟨hcat, ?_, ?_⟩
    · rw [hcat, List.length_flatten, List.map_map]
      simp [Function.comp_def]
    · intro hrect r hr
      rw [hcat] at hr
      rcases List.mem_flatten.mp hr with ⟨m, hm, hrm⟩
      rcases List.mem_map.mp hm with ⟨t, ht, rfl⟩
      exact hrect t ht r hrm

/-- Witness for C3 on the tiny model M0: well-formedness holds, the
projection of a one-particle set has one particle, the expansion of a
dimension-1 vector has num_particles particles, and the concatenation of
two one-particle batches has two particles. -/
theorem q2p_operator_shape_invariants_witness :
    M0.wf ∧
    (M0.projection1 c0 0 [[(0 : ℚ)]]).length = 1 ∧
    (M0.to_particles.forward [(0 : ℚ)]).length = M0.num_particles ∧
    ((catParticles [[[[(0 : ℚ)]]], [[[(0 : ℚ)]]]]).getD 0 []).length = 2 := by
  refine ⟨M0_wf, ?_, ?_, ?_⟩
  · have h := ((q2p_operator_shape_invariants c0 M0 M0_wf).1 0 [[(0 : ℚ)]]).1
    simpa using h
  · exact ((q2p_operator_shape_invariants c0 M0 M0_wf).2.2.2.1 [(0 : ℚ)] (by decide)).1
  · have h := ((q2p_operator_shape_invariants c0 M0 M0_wf).2.2.2.2.2
      [[[[(0 : ℚ)]]], [[[(0 : ℚ)]]]] 1 0 (by decide) (by decide) (by decide)).2.1
    simpa using h

/-- Claim C5: scoring decodes every particle against the tied entity
embedding table with no bias, then max-pools over the particle axis, so
entry (b, e) of the result is the maximum over particles p of the dot
product of particle p of batch element b with entity embedding row e. -/
theorem scoring_max_tied_dot (M : Q2P α)
    (henl : M.entity_embedding.length = M.num_entities)
    (bs : PBatch α) (b e : ℕ) (hb : b < bs.length) (he : e < M.num_entities)
    (hne : bs.getD b [] ≠ []) :
    (∃ p ∈ bs.getD b [], ((M.scoring bs).getD b []).getD e 0 =
      dot p (M.entity_embedding.getD e [])) ∧
    ∀ p ∈ bs.getD b [], dot p (M.entity_embedding.getD e []) ≤
      ((M.scoring bs).getD b []).getD e 0 := by
  have h1 : (M.scoring bs).getD b [] = M.scoring1 (bs.getD b []) := by
    have hs : M.scoring bs = bs.map M.scoring1 := rfl
    rw [hs]
    exact getD_map _ _ b [] [] hb
  have h2 : (M.scoring1 (bs.getD b [])).getD e 0 =
      vecMax ((bs.getD b []).map (fun p => dot (M.entity_embedding.getD e []) p)) := by
    have hq : M.scoring1 (bs.getD b []) = (List.range M.num_entities).map (fun e2 =>
        vecMax (((bs.getD b []).map (fun p =>
          M.entity_embedding.map (fun erow => dot erow p))).map
            (fun row => row.getD e2 0))) := rfl
    rw [hq, getD_map _ _ e 0 0 (by simpa using he), getD_range _ _ he]
    congr 1
    rw [List.map_map]
    apply List.map_congr_left
    intro p hp
    simp only [Function.comp_def]
    exact getD_map _ _ e 0 [] (by rw [henl]; exact he)
  have hmapne : ((bs.getD b []).map (fun p =>
      dot (M.entity_embedding.getD e []) p)) ≠ [] := by
    simpa using hne
  constructor
  · have h3 := (vecMax_spec _ hmapne).1
    rcases List.mem_map.mp h3 with ⟨p, hp, heq⟩
    refine ⟨p, hp, ?_⟩
    rw [h1, h2, ← heq]
    exact dot_comm _ _
  · intro p hp
    rw [h1, h2, dot_comm]
    exact (vecMax_spec _ hmapne).2 _ (List.mem_map_of_mem _ hp)

/-- Witness for C5 on the tiny model M0 and a one-element batch with one
particle. -/
theorem scoring_max_tied_dot_witness :
    M0.entity_embedding.length = M0.num_entities ∧
    (0 : ℕ) < ([[[(0 : ℚ)]]] : PBatch ℚ).length ∧
    (0 : ℕ) < M0.num_entities ∧
    (([[[(0 : ℚ)]]] : PBatch ℚ).getD 0 [] ≠ []) ∧
    ∀ p ∈ ([[[(0 : ℚ)]]] : PBatch ℚ).getD 0 [],
      dot p (M0.entity_embedding.getD 0 []) ≤
        ((M0.scoring [[[(0 : ℚ)]]]).getD 0 []).getD 0 0 :=
  ⟨by decide, by decide, by decide, by decide,
   (scoring_max_tied_dot M0 (by decide) [[[(0 : ℚ)]]] 0 0 (by decide) (by decide)
     (by decide)).2⟩

/-- Claim C6: on a p node, forward first evaluates the single sub-query;
if the sub-query tag is e it applies projection to the result, and for
every other sub-query tag it applies higher projection. -/
theorem forward_p_dispatch (c : ScalarFuns α) (M : Q2P α) (rels : List ℕ)
    (sub : SQTree) (rest : SQArgs) (r : PBatch α)
    (h : M.forward c sub = Except.ok (some r)) :
    M.forward c (SQTree.node "p" (SQArgs.consIds rels (SQArgs.consSub sub rest))) =
      Except.ok (some (if sub.tag = "e" then M.projectionB c rels r
        else M.higher_projectionB c rels r)) := by
  rw [Q2P.forward, if_pos (show ("p" : String) ∈ allowedTags by decide), if_pos rfl,
    Q2P.forwardP, h]
  rfl

/-- Witness for C6: projecting relation 0 over the entity anchor te picks
the projection operator, since the tag of te is e. -/
theorem forward_p_dispatch_witness :
    M0.forward c0 te = Except.ok (some [[[(0 : ℚ)]]]) ∧
    M0.forward c0 (SQTree.node "p" (SQArgs.consIds [0] (SQArgs.consSub te SQArgs.nil))) =
      Except.ok (some (if te.tag = "e" then M0.projectionB c0 [0] [[[(0 : ℚ)]]]
        else M0.higher_projectionB c0 [0] [[[(0 : ℚ)]]])) :=
  ⟨by with_unfolding_all rfl,
   forward_p_dispatch c0 M0 [0] te SQArgs.nil [[[(0 : ℚ)]]] (by with_unfolding_all rfl)⟩

/-- Claim C7: permuting the particle axis of the input to SelfAttention
permutes the output identically; no positional bias enters.  The list σ
enumerates the positions 0 .. N-1 in some order, and the query layer has
the constructed hidden_size shape. -/
theorem selfAttention_permutation_covariance (c : ScalarFuns α) (A : SelfAttention α)
    (x : List (List α)) (σ : List ℕ) (hσ : σ.Perm (List.range x.length))
    (hW : A.query.weight.length = A.hidden_size)
    (hB : A.query.bias.length = A.hidden_size) :
    A.forward c (applyPerm σ x) = applyPerm σ (A.forward c x) := by
  have hmem : ∀ i ∈ σ, i < x.length := fun i hi => List.mem_range.mp (hσ.mem_iff.mp hi)
  have hperm : (applyPerm σ x).Perm x := applyPerm_perm σ x hσ
  rw [forward_row_form, forward_row_form, applyPerm_map σ x _ hmem]
  apply List.map_congr_left
  intro xi _
  exact attn_row_perm c A hW hB x (applyPerm σ x) hperm (A.query.apply xi)

/-- Witness for C7 on a two-particle set and the swap permutation. -/
theorem selfAttention_permutation_covariance_witness :
    ([1, 0].Perm (List.range x0.length)) ∧
    SA0.forward c0 (applyPerm [1, 0] x0) = applyPerm [1, 0] (SA0.forward c0 x0) :=
  ⟨by decide,
   selfAttention_permutation_covariance c0 SA0 x0 [1, 0] (by decide) (by decide) (by decide)⟩


end SQE
